import Mathlib

/-!
# Verification of the c_utf8 crate

A shallow embedding of the c_utf8 Rust crate: UTF-8 encoded, nul-terminated
C strings.  Byte sequences are modelled as `List Nat` (each element intended
below 256), the owned buffer `CUtf8Buf` wraps the byte storage of its inner
Rust `String`, and the error taxonomy follows src/error.rs.
-/

namespace CUtf8Spec

/-- The detail carried by a UTF-8 decoding failure, mirroring
`core::str::Utf8Error`: the length of the longest valid prefix ending at a
character boundary, and the length of the offending sequence (`none` when the
input ends with an incomplete sequence). -/
structure Utf8Error where
  valid_up_to : Nat
  error_len : Option Nat
deriving DecidableEq, Repr

/-- UTF-8 validation of a byte sequence, mirroring
`core::str::from_utf8` / `run_utf8_validation` (the checker used by the
crate's fallible constructors).  `i` is the index of the head of the list in
the overall input; returns `none` when the bytes are valid UTF-8, and the
`Utf8Error` for the first invalid sequence otherwise. -/
def utf8Validate : List Nat → Nat → Option Utf8Error
  | [], _ => none
  | b :: rest, i =>
    if b ≤ 0x7F then utf8Validate rest (i + 1)
    else if b < 0xC2 then some ⟨i, some 1⟩
    else if b ≤ 0xDF then
      match rest with
      | [] => some ⟨i, none⟩
      | b1 :: rest1 =>
        if 0x80 ≤ b1 ∧ b1 ≤ 0xBF then utf8Validate rest1 (i + 2)
        else some ⟨i, some 1⟩
    else if b ≤ 0xEF then
      match rest with
      | [] => some ⟨i, none⟩
      | b1 :: rest1 =>
        if (if b = 0xE0 then 0xA0 else 0x80) ≤ b1 ∧
            b1 ≤ (if b = 0xED then 0x9F else 0xBF) then
          match rest1 with
          | [] => some ⟨i, none⟩
          | b2 :: rest2 =>
            if 0x80 ≤ b2 ∧ b2 ≤ 0xBF then utf8Validate rest2 (i + 3)
            else some ⟨i, some 2⟩
        else some ⟨i, some 1⟩
    else if b ≤ 0xF4 then
      match rest with
      | [] => some ⟨i, none⟩
      | b1 :: rest1 =>
        if (if b = 0xF0 then 0x90 else 0x80) ≤ b1 ∧
            b1 ≤ (if b = 0xF4 then 0x8F else 0xBF) then
          match rest1 with
          | [] => some ⟨i, none⟩
          | b2 :: rest2 =>
            if 0x80 ≤ b2 ∧ b2 ≤ 0xBF then
              match rest2 with
              | [] => some ⟨i, none⟩
              | b3 :: rest3 =>
                if 0x80 ≤ b3 ∧ b3 ≤ 0xBF then utf8Validate rest3 (i + 4)
                else some ⟨i, some 3⟩
            else some ⟨i, some 2⟩
        else some ⟨i, some 1⟩
    else some ⟨i, some 1⟩

/-- A byte sequence is valid UTF-8 when validation reports no error.  The
bytes of a Rust `String` or `str` always satisfy this. -/
def validUtf8 (l : List Nat) : Bool := (utf8Validate l 0).isNone

example : validUtf8 [72, 101, 121, 111, 33] = true := by decide

example : validUtf8 [0xC3, 0xA9] = true := by decide

example : validUtf8 [0xC3, 0x20] = false := by decide

example : utf8Validate [0x61, 0x80] 0 = some ⟨1, some 1⟩ := by decide

/-! ### Stepping lemmas for the validator -/

theorem vld_ascii (b : Nat) (rest : List Nat) (i : Nat) (hb : b ≤ 0x7F) :
    utf8Validate (b :: rest) i = utf8Validate rest (i + 1) := by
  rw [utf8Validate.eq_def]
  simp [hb]

theorem vld_two (b b1 : Nat) (rest : List Nat) (i : Nat)
    (h1 : ¬ b ≤ 0x7F) (h2 : ¬ b < 0xC2) (h3 : b ≤ 0xDF)
    (h4 : 0x80 ≤ b1 ∧ b1 ≤ 0xBF) :
    utf8Validate (b :: b1 :: rest) i = utf8Validate rest (i + 2) := by
  rw [utf8Validate.eq_def]
  simp [h1, h2, h3, h4]

theorem vld_three (b b1 b2 : Nat) (rest : List Nat) (i : Nat)
    (h1 : ¬ b ≤ 0x7F) (h2 : ¬ b < 0xC2) (h3 : ¬ b ≤ 0xDF) (h4 : b ≤ 0xEF)
    (h5 : (if b = 0xE0 then 0xA0 else 0x80) ≤ b1 ∧
      b1 ≤ (if b = 0xED then 0x9F else 0xBF))
    (h6 : 0x80 ≤ b2 ∧ b2 ≤ 0xBF) :
    utf8Validate (b :: b1 :: b2 :: rest) i = utf8Validate rest (i + 3) := by
  rw [utf8Validate.eq_def]
  simp [h1, h2, h3, h4, h5, h6]

theorem vld_four (b b1 b2 b3 : Nat) (rest : List Nat) (i : Nat)
    (h1 : ¬ b ≤ 0x7F) (h2 : ¬ b < 0xC2) (h3 : ¬ b ≤ 0xDF) (h4 : ¬ b ≤ 0xEF)
    (h5 : b ≤ 0xF4)
    (h6 : (if b = 0xF0 then 0x90 else 0x80) ≤ b1 ∧
      b1 ≤ (if b = 0xF4 then 0x8F else 0xBF))
    (h7 : 0x80 ≤ b2 ∧ b2 ≤ 0xBF) (h8 : 0x80 ≤ b3 ∧ b3 ≤ 0xBF) :
    utf8Validate (b :: b1 :: b2 :: b3 :: rest) i = utf8Validate rest (i + 4) := by
  rw [utf8Validate.eq_def]
  simp [h1, h2, h3, h4, h5, h6, h7, h8]

/-- Main structural lemma about the validator: a byte sequence that validates
at one starting index validates at every starting index, and appending two
valid sequences yields a valid sequence. -/
theorem utf8Validate_main (a : List Nat) (i : Nat) :
    utf8Validate a i = none →
      (∀ j, utf8Validate a j = none) ∧
      (∀ b, (∀ j, utf8Validate b j = none) →
        ∀ j, utf8Validate (a ++ b) j = none) := by
  induction a, i using utf8Validate.induct with
  | case1 i =>
    intro _
    refine ⟨fun j => by simp [utf8Validate], fun bb hbb j => ?_⟩
    simpa using hbb j
  | case2 b rest i hb ih =>
    intro h
    rw [vld_ascii b rest i hb] at h
    obtain ⟨hsh, hap⟩ := ih h
    refine ⟨fun j => ?_, fun bb hbb j => ?_⟩
    · rw [vld_ascii b rest j hb]
      exact hsh (j + 1)
    · rw [List.cons_append, vld_ascii _ _ _ hb]
      exact hap bb hbb (j + 1)
  | case3 b rest i h1 h2 =>
    intro h
    rw [utf8Validate.eq_def] at h
    simp [h1, h2] at h
  | case4 b i h1 h2 h3 =>
    intro h
    rw [utf8Validate.eq_def] at h
    simp [h1, h2, h3] at h
  | case5 b i h1 h2 h3 b1 rest1 h4 ih =>
    intro h
    rw [vld_two b b1 rest1 i h1 h2 h3 h4] at h
    obtain ⟨hsh, hap⟩ := ih h
    refine ⟨fun j => ?_, fun bb hbb j => ?_⟩
    · rw [vld_two b b1 rest1 j h1 h2 h3 h4]
      exact hsh (j + 2)
    · rw [List.cons_append, List.cons_append, vld_two _ _ _ _ h1 h2 h3 h4]
      exact hap bb hbb (j + 2)
  | case6 b i h1 h2 h3 b1 rest1 h4 =>
    intro h
    rw [utf8Validate.eq_def] at h
    simp [h1, h2, h3, h4] at h
  | case7 b i h1 h2 h3 h4 =>
    intro h
    rw [utf8Validate.eq_def] at h
    simp [h1, h2, h3, h4] at h
  | case8 b i h1 h2 h3 h4 b1 h5 =>
    intro h
    rw [utf8Validate.eq_def] at h
    simp [h1, h2, h3, h4, h5] at h
  | case9 b i h1 h2 h3 h4 b1 h5 b2 rest1 h6 ih =>
    intro h
    rw [vld_three b b1 b2 rest1 i h1 h2 h3 h4 h5 h6] at h
    obtain ⟨hsh, hap⟩ := ih h
    refine ⟨fun j => ?_, fun bb hbb j => ?_⟩
    · rw [vld_three b b1 b2 rest1 j h1 h2 h3 h4 h5 h6]
      exact hsh (j + 3)
    · rw [List.cons_append, List.cons_append, List.cons_append,
        vld_three _ _ _ _ _ h1 h2 h3 h4 h5 h6]
      exact hap bb hbb (j + 3)
  | case10 b i h1 h2 h3 h4 b1 h5 b2 rest1 h6 =>
    intro h
    rw [utf8Validate.eq_def] at h
    simp [h1, h2, h3, h4, h5, h6] at h
  | case11 b i h1 h2 h3 h4 b1 rest1 h5 =>
    intro h
    rw [utf8Validate.eq_def] at h
    simp [h1, h2, h3, h4, h5] at h
  | case12 b i h1 h2 h3 h4 h5 =>
    intro h
    rw [utf8Validate.eq_def] at h
    simp [h1, h2, h3, h4, h5] at h
  | case13 b i h1 h2 h3 h4 h5 b1 h6 =>
    intro h
    rw [utf8Validate.eq_def] at h
    simp [h1, h2, h3, h4, h5, h6] at h
  | case14 b i h1 h2 h3 h4 h5 b1 h6 b2 h7 =>
    intro h
    rw [utf8Validate.eq_def] at h
    simp [h1, h2, h3, h4, h5, h6, h7] at h
  | case15 b i h1 h2 h3 h4 h5 b1 h6 b2 h7 b3 rest1 h8 ih =>
    intro h
    rw [vld_four b b1 b2 b3 rest1 i h1 h2 h3 h4 h5 h6 h7 h8] at h
    obtain ⟨hsh, hap⟩ := ih h
    refine ⟨fun j => ?_, fun bb hbb j => ?_⟩
    · rw [vld_four b b1 b2 b3 rest1 j h1 h2 h3 h4 h5 h6 h7 h8]
      exact hsh (j + 4)
    · rw [List.cons_append, List.cons_append, List.cons_append,
        List.cons_append, vld_four _ _ _ _ _ _ h1 h2 h3 h4 h5 h6 h7 h8]
      exact hap bb hbb (j + 4)
  | case16 b i h1 h2 h3 h4 h5 b1 h6 b2 h7 b3 rest1 h8 =>
    intro h
    rw [utf8Validate.eq_def] at h
    simp [h1, h2, h3, h4, h5, h6, h7, h8] at h
  | case17 b i h1 h2 h3 h4 h5 b1 h6 b2 rest1 h7 =>
    intro h
    rw [utf8Validate.eq_def] at h
    simp [h1, h2, h3, h4, h5, h6, h7] at h
  | case18 b i h1 h2 h3 h4 h5 b1 rest1 h6 =>
    intro h
    rw [utf8Validate.eq_def] at h
    simp [h1, h2, h3, h4, h5, h6] at h
  | case19 b rest i h1 h2 h3 h4 h5 =>
    intro h
    rw [utf8Validate.eq_def] at h
    simp [h1, h2, h3, h4, h5] at h

/-- Validity at start index 0 gives validity at every start index. -/
theorem utf8Validate_shift (a : List Nat) (h : utf8Validate a 0 = none)
    (j : Nat) : utf8Validate a j = none :=
  (utf8Validate_main a 0 h).1 j

/-- The concatenation of two valid UTF-8 byte sequences is valid. -/
theorem validUtf8_append (a b : List Nat) (ha : validUtf8 a = true)
    (hb : validUtf8 b = true) : validUtf8 (a ++ b) = true := by
  rw [validUtf8, Option.isNone_iff_eq_none] at ha hb ⊢
  exact (utf8Validate_main a 0 ha).2 b (utf8Validate_shift b hb) 0

/-! ### UTF-8 encoding of a character

Rust `String::push` appends `char::encode_utf8` of the character; a `char` is
a Unicode scalar value (below 0xD800, or in 0xE000..0x110000), modelled by
Lean's `Char`. -/

/-- `char::encode_utf8` on the scalar value `n`. -/
def encodeNat (n : Nat) : List Nat :=
  if n < 0x80 then [n]
  else if n < 0x800 then [0xC0 + n / 64, 0x80 + n % 64]
  else if n < 0x10000 then
    [0xE0 + n / 4096, 0x80 + n / 64 % 64, 0x80 + n % 64]
  else
    [0xF0 + n / 262144, 0x80 + n / 4096 % 64, 0x80 + n / 64 % 64, 0x80 + n % 64]

/-- The bytes `String::push c` appends. -/
def encodeChar (c : Char) : List Nat := encodeNat c.toNat

/-- The encoding of a Unicode scalar value is valid UTF-8. -/
theorem encodeNat_valid (n : Nat)
    (hv : n < 0xD800 ∨ (0xE000 ≤ n ∧ n < 0x110000)) :
    utf8Validate (encodeNat n) 0 = none := by
  by_cases h1 : n < 0x80
  · simp only [encodeNat, if_pos h1]
    rw [vld_ascii _ _ _ (by omega)]
    rfl
  · by_cases h2 : n < 0x800
    · simp only [encodeNat, if_neg h1, if_pos h2]
      rw [vld_two _ _ _ _ (by omega) (by omega) (by omega) (by omega)]
      rfl
    · by_cases h3 : n < 0x10000
      · simp only [encodeNat, if_neg h1, if_neg h2, if_pos h3]
        rw [vld_three _ _ _ _ _ (by omega) (by omega) (by omega) (by omega)
          (by refine ⟨?_, ?_⟩ <;> split_ifs <;> omega) (by omega)]
        rfl
      · simp only [encodeNat, if_neg h1, if_neg h2, if_neg h3]
        rw [vld_four _ _ _ _ _ _ (by omega) (by omega) (by omega) (by omega)
          (by omega) (by refine ⟨?_, ?_⟩ <;> split_ifs <;> omega)
          (by omega) (by omega)]
        rfl

/-- The encoding of any `char` is valid UTF-8. -/
theorem encodeChar_valid (c : Char) : validUtf8 (encodeChar c) = true := by
  have hv := c.valid
  rw [validUtf8, Option.isNone_iff_eq_none, encodeChar]
  show utf8Validate (encodeNat c.val.toNat) 0 = none
  rcases hv with h | h
  · exact encodeNat_valid _ (Or.inl h)
  · exact encodeNat_valid _ (Or.inr ⟨by omega, h.2⟩)

/-! ### src/ext.rs -/

/-- ext.rs, `IsNulTerminated for [u8]`:
`self.last().cloned() == Some(0)`. -/
def is_nul_terminated (l : List Nat) : Bool := l.getLast? == some 0

/-! ### src/error.rs -/

/-- error.rs: the error for converting types to CUtf8, with exactly two
variants. -/
inductive Error where
  | Nul : Error
  | Utf8 : Utf8Error → Error
deriving DecidableEq, Repr

/-- error.rs line 14. -/
def NUL_ERROR : String := "Missing nul byte at the end of the string"

/-- `Display` for `core::str::Utf8Error` (the standard library rendering the
crate delegates to): reports the byte index of the first invalid sequence. -/
def displayUtf8Error (e : Utf8Error) : String :=
  match e.error_len with
  | some n =>
    ("invalid utf-8 sequence of " ++ toString n ++ " bytes from index ")
      ++ toString e.valid_up_to
  | none =>
    "incomplete utf-8 byte sequence from index " ++ toString e.valid_up_to

/-- error.rs lines 30-37, `Display for Error`. -/
def displayError : Error → String
  | .Nul => NUL_ERROR
  | .Utf8 e => displayUtf8Error e

/-- error.rs lines 39-48, `std::error::Error::cause for Error`: the
underlying decoding error when the kind is Utf8, nothing otherwise. -/
def causeError : Error → Option Utf8Error
  | .Utf8 e => some e
  | .Nul => none

/-- error.rs lines 16-21, `From<Utf8Error> for Error`. -/
def errorFromUtf8 (e : Utf8Error) : Error := .Utf8 e

/-- error.rs lines 23-28, `From<FromBytesWithNulError> for Error`: the
detail of the `CStr` constructor failure is discarded. -/
def errorFromBytesWithNul : Error := .Nul

/-! ### The borrowed view (src/c_utf8.rs, absent from the sources) -/

/-- Modelled from the spec: the borrowed view `CUtf8` lives in
src/c_utf8.rs, which is missing from the sources; per the spec it is a
transparent wrapper over a nul-terminated UTF-8 byte sequence (stored
nul-inclusive, like the inner `str` the crate wraps). -/
structure CUtf8 where
  bytesWithNul : List Nat
deriving DecidableEq, Repr

/-- Modelled from the spec: `CUtf8::from_bytes`, the fallible constructor
from raw bytes (src/c_utf8.rs is absent).  Per the spec it succeeds only when
the bytes end with exactly one trailing zero byte (checked C-string style via
`CStr::from_bytes_with_nul`, whose failure is converted by the in-source
`From<FromBytesWithNulError> for Error` impl to `Error::Nul`) and the bytes
before the terminator are valid UTF-8 (a `Utf8Error` is converted to
`Error::Utf8`). -/
def CUtf8.from_bytes (b : List Nat) : Except Error CUtf8 :=
  if (b.getLast? == some 0) && !(b.dropLast.contains 0) then
    match utf8Validate b.dropLast 0 with
    | none => .ok ⟨b⟩
    | some e => .error (errorFromUtf8 e)
  else .error errorFromBytesWithNul

/-- Modelled from the spec: the view's nul-inclusive accessor
(`as_str_with_nul` / `as_bytes_with_nul`). -/
def CUtf8.as_str_with_nul (v : CUtf8) : List Nat := v.bytesWithNul

/-- Byte-wise lexicographic comparison: the `Ord` of Rust byte slices and
strings. -/
def lexCmp : List Nat → List Nat → Ordering
  | [], [] => .eq
  | [], _ :: _ => .lt
  | _ :: _, [] => .gt
  | x :: xs, y :: ys =>
    match compare x y with
    | .eq => lexCmp xs ys
    | o => o

/-- Modelled from the spec: derived `PartialEq` of the view, comparing the
wrapped (nul-inclusive) str. -/
def CUtf8.eqV (a b : CUtf8) : Bool := a.bytesWithNul == b.bytesWithNul

/-- Modelled from the spec: derived `Ord` of the view. -/
def CUtf8.cmpV (a b : CUtf8) : Ordering := lexCmp a.bytesWithNul b.bytesWithNul

/-- Modelled from the spec: the byte stream the derived `Hash` of the view
feeds to the hasher (`Hash for str` writes the bytes then a 0xFF marker). -/
def CUtf8.hashStream (a : CUtf8) : List Nat := a.bytesWithNul ++ [0xFF]

/-! ### src/c_utf8_buf.rs -/

/-- c_utf8_buf.rs line 40: `pub struct CUtf8Buf(String)`; the field is the
byte storage of the inner `String`. -/
structure CUtf8Buf where
  string : List Nat
deriving DecidableEq, Repr

/-- c_utf8_buf.rs lines 225-229, `CUtf8Buf::new`: storage is a single zero
byte (`vec![0; 1]`). -/
def CUtf8Buf.new : CUtf8Buf := ⟨[0]⟩

/-- c_utf8_buf.rs lines 233-239, `CUtf8Buf::from_string`: appends a nul
terminator if one does not already exist, then takes ownership. -/
def CUtf8Buf.from_string (s : List Nat) : CUtf8Buf :=
  if is_nul_terminated s then ⟨s⟩ else ⟨s ++ [0]⟩

/-- c_utf8_buf.rs lines 248-262, `CUtf8Buf::with_string`: pop the trailing
byte (the nul), run the mutation on the inner `String`, push the nul back. -/
def CUtf8Buf.with_string (b : CUtf8Buf) (f : List Nat → List Nat) : CUtf8Buf :=
  ⟨f b.string.dropLast ++ [0]⟩

/-- c_utf8_buf.rs lines 264-268, `CUtf8Buf::push_str`. -/
def CUtf8Buf.push_str (b : CUtf8Buf) (s : List Nat) : CUtf8Buf :=
  b.with_string (· ++ s)

/-- c_utf8_buf.rs lines 270-274, `CUtf8Buf::push`. -/
def CUtf8Buf.push (b : CUtf8Buf) (c : Char) : CUtf8Buf :=
  b.with_string (· ++ encodeChar c)

/-- c_utf8_buf.rs lines 288-291, `CUtf8Buf::into_string_with_nul`. -/
def CUtf8Buf.into_string_with_nul (b : CUtf8Buf) : List Nat := b.string

/-- c_utf8_buf.rs lines 278-283, `CUtf8Buf::into_string`: pop the trailing
nul byte. -/
def CUtf8Buf.into_string (b : CUtf8Buf) : List Nat :=
  b.into_string_with_nul.dropLast

/-- c_utf8_buf.rs lines 301-305, `CUtf8Buf::into_bytes_with_nul`. -/
def CUtf8Buf.into_bytes_with_nul (b : CUtf8Buf) : List Nat :=
  b.into_string_with_nul

/-- c_utf8_buf.rs lines 293-299, `CUtf8Buf::into_bytes`. -/
def CUtf8Buf.into_bytes (b : CUtf8Buf) : List Nat :=
  b.into_bytes_with_nul.dropLast

/-- c_utf8_buf.rs lines 63-70, `Deref`: reinterpret the inner `String` as a
`CUtf8` without copying. -/
def CUtf8Buf.deref (b : CUtf8Buf) : CUtf8 := ⟨b.string⟩

/-- c_utf8_buf.rs lines 150-157, `ToOwned for CUtf8`:
`CUtf8Buf(self.as_str_with_nul().into())`. -/
def CUtf8.to_owned (v : CUtf8) : CUtf8Buf := ⟨v.as_str_with_nul⟩

/-- c_utf8_buf.rs lines 79-87, `FromIterator for CUtf8Buf`: collect the
fragments into a plain `String` (concatenation), then `from_string`. -/
def CUtf8Buf.from_iter (frags : List (List Nat)) : CUtf8Buf :=
  CUtf8Buf.from_string frags.flatten

/-- c_utf8_buf.rs line 39: derived `PartialEq`, comparing the inner
`String`. -/
def CUtf8Buf.eqB (a b : CUtf8Buf) : Bool := a.string == b.string

/-- c_utf8_buf.rs line 39: derived `Ord`, comparing the inner `String`. -/
def CUtf8Buf.cmpB (a b : CUtf8Buf) : Ordering := lexCmp a.string b.string

/-- c_utf8_buf.rs line 39: the byte stream the derived `Hash` feeds to the
hasher (`Hash for String` = `Hash for str`: the bytes then a 0xFF marker). -/
def CUtf8Buf.hashStream (b : CUtf8Buf) : List Nat := b.string ++ [0xFF]

/-- c_utf8_buf.rs lines 42-47, `PartialEq<CUtf8> for CUtf8Buf`:
`(**self) == *other`, that is, the derefed view compared with the view. -/
def CUtf8Buf.eqView (b : CUtf8Buf) (v : CUtf8) : Bool := CUtf8.eqV b.deref v

/-- c_utf8_buf.rs lines 49-54, `PartialEq<CUtf8Buf> for CUtf8`:
`other.eq(self)`. -/
def CUtf8.eqBuf (v : CUtf8) (b : CUtf8Buf) : Bool := CUtf8Buf.eqView b v

/-! ### src/internal.rs and the c_utf8! macro (src/lib.rs) -/

/-- internal.rs lines 4-13, `check_no_nul`: scans the literal's bytes and
panics in const evaluation on the first zero byte; `true` means the scan
passes without panicking. -/
def check_no_nul : List Nat → Bool
  | [] => true
  | b :: rest => if b = 0 then false else check_no_nul rest

/-- lib.rs lines 117-129, the `c_utf8!` macro: run `check_no_nul` on the
literal at compile time (`none` = compile failure), then reinterpret the
literal with a `"\0"` concatenated (`concat!($s, "\0")`) as a `CUtf8`. -/
def c_utf8_lit (s : List Nat) : Option CUtf8 :=
  if check_no_nul s then some ⟨s ++ [0]⟩ else none

/-! ### The invariant -/

/-- The invariant of both types, as the spec states it: the storage is
nonempty, ends with a zero byte, and the bytes before the terminator contain
no zero byte and are valid UTF-8. -/
def bufInvariant (b : CUtf8Buf) : Bool :=
  decide (1 ≤ b.string.length) && (b.string.getLast? == some 0)
    && !(b.string.dropLast.contains 0) && validUtf8 b.string.dropLast

/-- An arbitrary safe mutation of the owned buffer. -/
inductive Mut where
  | str (s : List Nat) : Mut
  | chr (c : Char) : Mut

/-- Apply one safe mutation. -/
def applyMut (b : CUtf8Buf) : Mut → CUtf8Buf
  | .str s => b.push_str s
  | .chr c => b.push c

/-- The appended content is a real `str` (valid UTF-8) free of zero bytes,
resp. a non-nul `char`. -/
def mutOk : Mut → Bool
  | .str s => validUtf8 s && !(s.contains 0)
  | .chr c => c.toNat != 0

example : (CUtf8Buf.from_string [104, 105]).string = [104, 105, 0] := by decide

example : CUtf8.from_bytes [97, 98, 0, 99, 0] = .error .Nul := rfl

example : (CUtf8.from_bytes [104, 105, 0]).isOk = true := by decide

example : CUtf8.from_bytes [0xC3, 0x28, 0] = .error (.Utf8 ⟨0, some 1⟩) := rfl

/-! ### Helper lemmas -/

/-- A byte sequence without zero bytes is not nul terminated. -/
theorem not_terminated_of_nulFree (s : List Nat) (h : s.contains 0 = false) :
    is_nul_terminated s = false := by
  rw [is_nul_terminated]
  cases hL : s.getLast? with
  | none => rfl
  | some x =>
    have hx : x ∈ s := List.mem_of_getLast?_eq_some hL
    have : x ≠ 0 := by
      intro h0
      subst h0
      simp at h
      exact h hx
    simpa using this

/-- `check_no_nul` passes exactly on nul-free byte sequences. -/
theorem check_no_nul_eq (s : List Nat) : check_no_nul s = !(s.contains 0) := by
  induction s with
  | nil => rfl
  | cons b rest ih =>
    by_cases hb : b = 0
    · subst hb
      simp [check_no_nul]
    · simp [check_no_nul, hb, ih, Ne.symm hb]

/-- Equality of byte sequences is unchanged by appending the terminator. -/
theorem beq_concat_nul (t1 t2 : List Nat) :
    (t1 ++ [0] == t2 ++ [0]) = (t1 == t2) := by
  by_cases h : t1 = t2
  · subst h
    simp
  · have h2 : t1 ++ [0] ≠ t2 ++ [0] := by
      intro hc
      exact h ((List.append_left_inj [0]).mp hc)
    simp [h, h2]

/-- Lexicographic comparison of nul-free byte sequences is unchanged by
appending the terminator: the nul byte sorts below every body byte. -/
theorem lexCmp_concat_nul (t1 t2 : List Nat) (h1 : t1.contains 0 = false)
    (h2 : t2.contains 0 = false) :
    lexCmp (t1 ++ [0]) (t2 ++ [0]) = lexCmp t1 t2 := by
  induction t1 generalizing t2 with
  | nil =>
    cases t2 with
    | nil => rfl
    | cons y ys =>
      have hy : 0 < y := by
        have : y ≠ 0 := by
          intro h0
          subst h0
          simp at h2
        omega
      simp only [List.nil_append, List.cons_append, lexCmp]
      rw [(Nat.compare_eq_lt).mpr hy]
  | cons x xs ih =>
    have hx : 0 < x := by
      have : x ≠ 0 := by
        intro h0
        subst h0
        simp at h1
      omega
    have hxs : xs.contains 0 = false := by
      simp only [List.contains_cons, Bool.or_eq_false_iff] at h1
      exact h1.2
    cases t2 with
    | nil =>
      simp only [List.nil_append, List.cons_append, lexCmp]
      rw [(Nat.compare_eq_gt).mpr hx]
    | cons y ys =>
      have hys : ys.contains 0 = false := by
        simp only [List.contains_cons, Bool.or_eq_false_iff] at h2
        exact h2.2
      simp only [List.cons_append, lexCmp]
      cases hcmp : compare x y <;> simp [hcmp, ih ys hxs hys]

/-- The invariant, unfolded to its four clauses. -/
theorem bufInvariant_iff (b : CUtf8Buf) :
    bufInvariant b = true ↔
      1 ≤ b.string.length ∧ b.string.getLast? = some 0 ∧
      b.string.dropLast.contains 0 = false ∧
      validUtf8 b.string.dropLast = true := by
  rw [bufInvariant]
  simp [Bool.and_eq_true, and_assoc]

/-- The encoding of a non-nul scalar value contains no zero byte: a
multi-byte sequence consists of bytes at least 0x80, and a one-byte sequence
is the scalar itself. -/
theorem encodeNat_nulFree (n : Nat) (hn : n ≠ 0) :
    (encodeNat n).contains 0 = false := by
  rw [encodeNat]
  split_ifs <;> simp <;> omega

/-- `from_string` establishes the invariant on nul-free text. -/
theorem from_string_inv (s : List Nat) (hv : validUtf8 s = true)
    (h0 : s.contains 0 = false) :
    bufInvariant (CUtf8Buf.from_string s) = true := by
  rw [CUtf8Buf.from_string, not_terminated_of_nulFree s h0]
  rw [show (if (false : Bool) then CUtf8Buf.mk s else ⟨s ++ [0]⟩) = ⟨s ++ [0]⟩
    from rfl]
  rw [bufInvariant_iff]
  refine ⟨by simp, ?_, ?_, ?_⟩
  · exact List.getLast?_concat s
  · rw [List.dropLast_concat]
    exact h0
  · rw [List.dropLast_concat]
    exact hv

/-- `push_str` preserves the invariant when the appended `str` is free of
zero bytes. -/
theorem push_str_inv (b : CUtf8Buf) (hb : bufInvariant b = true)
    (s : List Nat) (hv : validUtf8 s = true) (h0 : s.contains 0 = false) :
    bufInvariant (b.push_str s) = true := by
  rw [bufInvariant_iff] at hb
  obtain ⟨hlen, hlast, hfree, hval⟩ := hb
  rw [bufInvariant_iff]
  show 1 ≤ ((b.string.dropLast ++ s) ++ [0]).length ∧
    ((b.string.dropLast ++ s) ++ [0]).getLast? = some 0 ∧
    ((b.string.dropLast ++ s) ++ [0]).dropLast.contains 0 = false ∧
    validUtf8 ((b.string.dropLast ++ s) ++ [0]).dropLast = true
  refine ⟨by simp; omega, List.getLast?_concat _, ?_, ?_⟩
  · rw [List.dropLast_concat]
    have hx : (0 : Nat) ∉ b.string.dropLast := by simpa using hfree
    have hs : (0 : Nat) ∉ s := by simpa using h0
    simp [List.mem_append, hx, hs]
  · rw [List.dropLast_concat]
    exact validUtf8_append _ _ hval hv

/-- `push` preserves the invariant for every non-nul character. -/
theorem push_inv (b : CUtf8Buf) (hb : bufInvariant b = true) (c : Char)
    (hc : c.toNat ≠ 0) : bufInvariant (b.push c) = true :=
  push_str_inv b hb (encodeChar c) (encodeChar_valid c)
    (encodeNat_nulFree c.toNat hc)

/-! ### The claims -/

/-- C3: on a buffer satisfying the invariant, `push_str` (resp. `push`)
removes the trailing zero byte, appends the content, and re-appends the zero
byte, so the storage becomes old-body ++ content ++ [0]; starting from the
empty buffer, appending "Hello " then "World" yields terminator-exclusive
text "Hello World" and terminator-inclusive bytes "Hello World\0". -/
theorem claim_C3 :
    (∀ b : CUtf8Buf, bufInvariant b = true → ∀ s : List Nat,
      (b.push_str s).string = b.string.dropLast ++ s ++ [0]) ∧
    (∀ b : CUtf8Buf, bufInvariant b = true → ∀ c : Char,
      (b.push c).string = b.string.dropLast ++ encodeChar c ++ [0]) ∧
    ((CUtf8Buf.new.push_str [72, 101, 108, 108, 111, 32]).push_str
        [87, 111, 114, 108, 100]).into_string =
      [72, 101, 108, 108, 111, 32, 87, 111, 114, 108, 100] ∧
    ((CUtf8Buf.new.push_str [72, 101, 108, 108, 111, 32]).push_str
        [87, 111, 114, 108, 100]).into_string_with_nul =
      [72, 101, 108, 108, 111, 32, 87, 111, 114, 108, 100, 0] :=
  ⟨fun _ _ _ => rfl, fun _ _ _ => rfl, by decide, by decide⟩

/-- C3 witness: the stated equation at the empty buffer and the bytes of
"!". -/
theorem claim_C3_witness :
    (CUtf8Buf.new.push_str [33]).string =
      CUtf8Buf.new.string.dropLast ++ [33] ++ [0] :=
  claim_C3.1 CUtf8Buf.new (by decide) [33]

/-- C4: `from_string` is total; when the input already ends with a zero byte
the storage is taken unchanged (same length, no second terminator),
otherwise exactly one zero byte is appended (length grows by one). -/
theorem claim_C4 (s : List Nat) :
    (is_nul_terminated s = true →
      (CUtf8Buf.from_string s).string = s ∧
      (CUtf8Buf.from_string s).string.length = s.length) ∧
    (is_nul_terminated s = false →
      (CUtf8Buf.from_string s).string = s ++ [0] ∧
      (CUtf8Buf.from_string s).string.length = s.length + 1) := by
  constructor
  · intro h
    rw [CUtf8Buf.from_string, h]
    exact ⟨rfl, rfl⟩
  · intro h
    rw [CUtf8Buf.from_string, h]
    refine ⟨rfl, ?_⟩
    simp

/-- C4 witness: both branches at concrete inputs. -/
theorem claim_C4_witness :
    (CUtf8Buf.from_string [97, 0]).string = [97, 0] ∧
    (CUtf8Buf.from_string [97]).string = [97] ++ [0] :=
  ⟨((claim_C4 [97, 0]).1 (by decide)).1, ((claim_C4 [97]).2 (by decide)).1⟩

/-- C5: for nul-free text, `from_string` then `into_string` is the
identity: the appended terminator is removed and nothing else changes. -/
theorem claim_C5 (s : List Nat) (hv : validUtf8 s = true)
    (h0 : s.contains 0 = false) :
    (CUtf8Buf.from_string s).into_string = s := by
  rw [CUtf8Buf.into_string, CUtf8Buf.into_string_with_nul,
    CUtf8Buf.from_string, not_terminated_of_nulFree s h0]
  exact List.dropLast_concat

/-- C5 witness: the round trip at the bytes of "hi". -/
theorem claim_C5_witness :
    (CUtf8Buf.from_string [104, 105]).into_string = [104, 105] :=
  claim_C5 [104, 105] (by decide) (by decide)

/-- C8: collecting fragments equals collecting them into a plain `String`
(concatenation) and then applying `from_string`; collecting
["Hello ", "there, ", "fellow ", "human!"] yields the bytes
"Hello there, fellow human!\0". -/
theorem claim_C8 :
    (∀ frags : List (List Nat),
      CUtf8Buf.from_iter frags = CUtf8Buf.from_string frags.flatten) ∧
    (∀ frags : List (List Nat), frags.flatten.contains 0 = false →
      (CUtf8Buf.from_iter frags).string = frags.flatten ++ [0]) ∧
    (CUtf8Buf.from_iter
        [[72, 101, 108, 108, 111, 32], [116, 104, 101, 114, 101, 44, 32],
          [102, 101, 108, 108, 111, 119, 32],
          [104, 117, 109, 97, 110, 33]]).string =
      [72, 101, 108, 108, 111, 32, 116, 104, 101, 114, 101, 44, 32, 102,
        101, 108, 108, 111, 119, 32, 104, 117, 109, 97, 110, 33, 0] := by
  refine ⟨fun _ => rfl, fun frags h => ?_, by decide⟩
  rw [CUtf8Buf.from_iter, CUtf8Buf.from_string,
    not_terminated_of_nulFree _ h]
  rfl

/-- C8 witness: a nul-free fragment sequence. -/
theorem claim_C8_witness :
    (CUtf8Buf.from_iter [[104], [105]]).string = [104, 105] ++ [0] :=
  claim_C8.2.1 [[104], [105]] (by decide)

/-- C9: the error type has exactly two kinds; the Nul kind renders the
missing-terminator message, the Utf8 kind renders the underlying decoding
error, whose text ends with the byte offset of the first invalid sequence;
the cause chain yields the underlying decoding error exactly for the Utf8
kind. -/
theorem claim_C9 :
    (∀ e : Error, e = .Nul ∨ ∃ u, e = .Utf8 u) ∧
    displayError .Nul = "Missing nul byte at the end of the string" ∧
    (∀ u : Utf8Error, displayError (.Utf8 u) = displayUtf8Error u) ∧
    (∀ u : Utf8Error, ∃ p : String,
      displayError (.Utf8 u) = p ++ toString u.valid_up_to) ∧
    (∀ u : Utf8Error, causeError (.Utf8 u) = some u) ∧
    causeError .Nul = none := by
  refine ⟨?_, rfl, fun _ => rfl, ?_, fun _ => rfl, rfl⟩
  · intro e
    cases e with
    | Nul => exact Or.inl rfl
    | Utf8 u => exact Or.inr ⟨u, rfl⟩
  · intro u
    cases hE : u.error_len with
    | none =>
      exact ⟨"incomplete utf-8 byte sequence from index ",
        by rw [displayError, displayUtf8Error, hE]⟩
    | some n =>
      exact ⟨"invalid utf-8 sequence of " ++ toString n
          ++ " bytes from index ",
        by rw [displayError, displayUtf8Error, hE]⟩

/-- C10: `from_string` on the empty `String` produces storage of exactly one
zero byte, identical to `CUtf8Buf::new()`, because the nul-termination test
is false on the empty sequence. -/
theorem claim_C10 :
    (CUtf8Buf.from_string []).string = [0] ∧
    CUtf8Buf.from_string [] = CUtf8Buf.new ∧
    is_nul_terminated [] = false := by decide

/-- C1: `CUtf8::from_bytes` succeeds iff the bytes end with a zero byte that
is the only zero byte and the bytes before it are valid UTF-8; when the
trailing zero is missing or a zero occurs earlier it fails with `Error::Nul`
(so for the bytes of "ab\0c\0"), and when only the UTF-8 check fails it
fails with `Error::Utf8`. -/
theorem claim_C1 (b : List Nat) :
    ((CUtf8.from_bytes b).isOk = true ↔
      b.getLast? = some 0 ∧ b.dropLast.contains 0 = false ∧
        validUtf8 b.dropLast = true) ∧
    (¬ (b.getLast? = some 0 ∧ b.dropLast.contains 0 = false) →
      CUtf8.from_bytes b = .error .Nul) ∧
    (b.getLast? = some 0 → b.dropLast.contains 0 = false →
      validUtf8 b.dropLast = false →
      ∃ e, CUtf8.from_bytes b = .error (.Utf8 e)) ∧
    CUtf8.from_bytes [97, 98, 0, 99, 0] = .error .Nul := by
  have hcond : (((b.getLast? == some 0) && !(b.dropLast.contains 0)) = true) ↔
      (b.getLast? = some 0 ∧ b.dropLast.contains 0 = false) := by
    simp
  refine ⟨⟨?_, ?_⟩, ?_, ?_, rfl⟩
  · intro h
    rw [CUtf8.from_bytes] at h
    by_cases hc : b.getLast? = some 0 ∧ b.dropLast.contains 0 = false
    · refine ⟨hc.1, hc.2, ?_⟩
      rw [if_pos (hcond.mpr hc)] at h
      cases hV : utf8Validate b.dropLast 0 with
      | none => simp [validUtf8, hV]
      | some e =>
        rw [hV] at h
        simp [errorFromUtf8, Except.isOk, Except.toBool] at h
    · rw [if_neg (fun hh => hc (hcond.mp hh))] at h
      simp [errorFromBytesWithNul, Except.isOk, Except.toBool] at h
  · rintro ⟨h1, h2, h3⟩
    rw [CUtf8.from_bytes, if_pos (hcond.mpr ⟨h1, h2⟩)]
    have hV : utf8Validate b.dropLast 0 = none := by
      rw [validUtf8] at h3
      exact Option.isNone_iff_eq_none.mp h3
    rw [hV]
    rfl
  · intro h
    rw [CUtf8.from_bytes, if_neg (fun hh => h (hcond.mp hh))]
    rfl
  · intro h1 h2 h3
    rw [CUtf8.from_bytes, if_pos (hcond.mpr ⟨h1, h2⟩)]
    rw [validUtf8] at h3
    cases hV : utf8Validate b.dropLast 0 with
    | none =>
      rw [hV] at h3
      simp at h3
    | some e =>
      exact ⟨e, rfl⟩

/-- C1 witness: the three outcomes at concrete byte sequences. -/
theorem claim_C1_witness :
    (CUtf8.from_bytes [104, 0]).isOk = true ∧
    CUtf8.from_bytes [99, 0, 100] = .error .Nul ∧
    (∃ e, CUtf8.from_bytes [0xFF, 0] = .error (.Utf8 e)) :=
  ⟨(claim_C1 [104, 0]).1.mpr (by decide),
    (claim_C1 [99, 0, 100]).2.1 (by decide),
    (claim_C1 [0xFF, 0]).2.2.1 (by decide) (by decide) (by decide)⟩

/-- C2 (amended): every owned buffer obtained through safe construction
(`new`, `from_string`, collect, conversion from a borrowed view satisfying
the invariant) and after any sequence of safe mutations satisfies the
invariant, provided every input `String`/`str` contains no zero byte and
every appended `char` is not the nul character. -/
theorem claim_C2 :
    bufInvariant CUtf8Buf.new = true ∧
    (∀ s : List Nat, validUtf8 s = true → s.contains 0 = false →
      bufInvariant (CUtf8Buf.from_string s) = true) ∧
    (∀ frags : List (List Nat), validUtf8 frags.flatten = true →
      frags.flatten.contains 0 = false →
      bufInvariant (CUtf8Buf.from_iter frags) = true) ∧
    (∀ v : CUtf8, bufInvariant ⟨v.bytesWithNul⟩ = true →
      bufInvariant v.to_owned = true) ∧
    (∀ b : CUtf8Buf, bufInvariant b = true → ∀ ms : List Mut,
      (∀ m ∈ ms, mutOk m = true) →
      bufInvariant (ms.foldl applyMut b) = true) := by
  refine ⟨by decide, from_string_inv, ?_, fun v hv => hv, ?_⟩
  · intro frags hv h0
    exact from_string_inv frags.flatten hv h0
  · intro b hb ms
    induction ms generalizing b with
    | nil => exact fun _ => hb
    | cons m rest ih =>
      intro hms
      have hm : mutOk m = true := hms m (List.mem_cons_self m rest)
      have hstep : bufInvariant (applyMut b m) = true := by
        cases m with
        | str s =>
          rw [mutOk, Bool.and_eq_true, Bool.not_eq_true'] at hm
          exact push_str_inv b hb s hm.1 hm.2
        | chr c =>
          rw [mutOk] at hm
          refine push_inv b hb c ?_
          simpa using hm
      exact ih (applyMut b m) hstep
        (fun m' hm' => hms m' (List.mem_cons_of_mem m hm'))

/-- C2 witness: the invariant at a concrete construction followed by a
concrete mutation sequence. -/
theorem claim_C2_witness :
    bufInvariant (CUtf8Buf.from_string [104, 105]) = true ∧
    bufInvariant
      ([Mut.str [33], Mut.chr 'a'].foldl applyMut CUtf8Buf.new) = true :=
  ⟨claim_C2.2.1 [104, 105] (by decide) (by decide),
    claim_C2.2.2.2.2 CUtf8Buf.new (by decide) [Mut.str [33], Mut.chr 'a']
      (by decide)⟩

/-- C2 counterexample: the claim as stated quantifies over every input
`String`; the `String` "\0a" (bytes [0, 97]) is valid UTF-8, yet
`from_string` on it yields a buffer whose pre-terminator bytes contain a
zero byte, so the invariant does not hold. -/
theorem claim_C2_counterexample :
    validUtf8 [0, 97] = true ∧
    ((CUtf8Buf.from_string [0, 97]).string.dropLast).contains 0 = true ∧
    bufInvariant (CUtf8Buf.from_string [0, 97]) = false := by decide

/-- C6: equality, ordering and hashing between the owned buffer and the
borrowed view are symmetric and agree with those of the terminator-exclusive
text: for valid instances with bodies t1, t2, buffer-vs-buffer,
view-vs-view and mixed equality all coincide with equality of the bodies,
both orderings coincide with the lexicographic order of the bodies, buffer
and view feed identical byte streams to the hasher, and a buffer built from
"abc" equals (and hashes identically to) a view over "abc\0". -/
theorem claim_C6 :
    (∀ t1 t2 : List Nat, t1.contains 0 = false → t2.contains 0 = false →
      CUtf8Buf.eqB ⟨t1 ++ [0]⟩ ⟨t2 ++ [0]⟩ = (t1 == t2) ∧
      CUtf8.eqV ⟨t1 ++ [0]⟩ ⟨t2 ++ [0]⟩ = (t1 == t2) ∧
      CUtf8Buf.eqView ⟨t1 ++ [0]⟩ ⟨t2 ++ [0]⟩ = (t1 == t2) ∧
      CUtf8.eqBuf ⟨t2 ++ [0]⟩ ⟨t1 ++ [0]⟩ =
        CUtf8Buf.eqView ⟨t1 ++ [0]⟩ ⟨t2 ++ [0]⟩ ∧
      CUtf8Buf.cmpB ⟨t1 ++ [0]⟩ ⟨t2 ++ [0]⟩ = lexCmp t1 t2 ∧
      CUtf8.cmpV ⟨t1 ++ [0]⟩ ⟨t2 ++ [0]⟩ = lexCmp t1 t2 ∧
      CUtf8Buf.hashStream ⟨t1 ++ [0]⟩ = CUtf8.hashStream ⟨t1 ++ [0]⟩) ∧
    CUtf8Buf.eqView (CUtf8Buf.from_string [97, 98, 99]) ⟨[97, 98, 99, 0]⟩
      = true ∧
    CUtf8Buf.hashStream (CUtf8Buf.from_string [97, 98, 99]) =
      CUtf8.hashStream ⟨[97, 98, 99, 0]⟩ := by
  refine ⟨?_, by decide, by decide⟩
  intro t1 t2 h1 h2
  refine ⟨beq_concat_nul t1 t2, beq_concat_nul t1 t2, beq_concat_nul t1 t2,
    rfl, lexCmp_concat_nul t1 t2 h1 h2, lexCmp_concat_nul t1 t2 h1 h2, rfl⟩

/-- C6 witness: the agreement at the bodies "abc" and "x". -/
theorem claim_C6_witness :
    CUtf8Buf.eqB ⟨[97, 98, 99] ++ [0]⟩ ⟨[120] ++ [0]⟩
      = ([97, 98, 99] == [120]) ∧
    CUtf8Buf.cmpB ⟨[97, 98, 99] ++ [0]⟩ ⟨[120] ++ [0]⟩
      = lexCmp [97, 98, 99] [120] :=
  ⟨(claim_C6.1 [97, 98, 99] [120] (by decide) (by decide)).1,
    (claim_C6.1 [97, 98, 99] [120] (by decide) (by decide)).2.2.2.2.1⟩

/-- C7: the compile-time literal constructor fails iff the literal contains
a zero byte anywhere (including as its final character); every accepted
literal yields a view whose storage is the literal's bytes followed by one
appended zero byte. -/
theorem claim_C7 (s : List Nat) :
    (c_utf8_lit s = none ↔ s.contains 0 = true) ∧
    (∀ v, c_utf8_lit s = some v → v.bytesWithNul = s ++ [0]) := by
  constructor
  · rw [c_utf8_lit, check_no_nul_eq]
    cases hc : s.contains 0 <;> simp [hc]
  · intro v hv
    rw [c_utf8_lit, check_no_nul_eq] at hv
    cases hc : s.contains 0 with
    | true =>
      rw [hc] at hv
      simp at hv
    | false =>
      rw [hc] at hv
      simp at hv
      rw [← hv]

/-- C7 witness: a rejected literal with an interior nul and an accepted
literal. -/
theorem claim_C7_witness :
    c_utf8_lit [72, 0, 105] = none ∧
    CUtf8.bytesWithNul ⟨[72, 105, 0]⟩ = [72, 105] ++ [0] :=
  ⟨(claim_C7 [72, 0, 105]).1.mpr (by decide),
    (claim_C7 [72, 105]).2 ⟨[72, 105, 0]⟩ rfl⟩

end CUtf8Spec
